import Mathlib

/-!
Verification development for the ro-market-crawler orchestration core.

The embedding covers:
* `src/cache.py` — the `TTLCache` keyed store with lazy expiry and counters;
* `src/websocket/manager.py` — the `ConnectionManager` subscription hub;
* `src/api/routes.py` — the `get_top5_items` and `search_items` orchestration
  flows, with the Market Data Source and History Store collaborators supplied
  as inputs (their contracts: an optional top-N result, a deal list, a
  history snapshot).

Time is modelled as a natural-number clock (`datetime.now()` readings are
passed explicitly); payload record types are kept abstract via type
parameters, since the orchestration logic never inspects item internals.
-/

namespace RoMarket

/-! ## Cache model (`src/cache.py`) -/

/-- Model of `CacheEntry`: value, absolute expiry instant, creation instant. -/
structure CacheEntry (α : Type) where
  value : α
  expires_at : Nat
  created_at : Nat
  deriving Repr, DecidableEq

/-- Model of `CacheEntry.is_expired`: `datetime.now() >= self.expires_at`. -/
def CacheEntry.is_expired (e : CacheEntry α) (now : Nat) : Bool :=
  e.expires_at ≤ now

/-- Model of `TTLCache` state: the key → entry mapping, the set of keys present,
the per-instance default TTL and the running hit/miss/set counters. -/
structure TTLCache (α : Type) where
  data : String → Option (CacheEntry α)
  keys : Finset String
  default_ttl : Nat
  hits : Nat
  misses : Nat
  sets : Nat

/-- A fresh cache: `TTLCache.__init__`. -/
def TTLCache.init (α : Type) (default_ttl : Nat) : TTLCache α :=
  { data := fun _ => none, keys := ∅, default_ttl := default_ttl
    hits := 0, misses := 0, sets := 0 }

/-- Model of `ttl = ttl or self._default_ttl`: a falsy TTL argument (absent or `0`)
falls back to the default TTL. -/
def TTLCache.effTtl (default_ttl : Nat) : Option Nat → Nat
  | none => default_ttl
  | some t => if t = 0 then default_ttl else t

/-- Model of `TTLCache.get`: returns the live value or `none`; an expired entry is
deleted by the read and counted as a miss, a live one as a hit. -/
def TTLCache.get (c : TTLCache α) (now : Nat) (key : String) :
    Option α × TTLCache α :=
  match c.data key with
  | none => (none, { c with misses := c.misses + 1 })
  | some entry =>
    if entry.is_expired now then
      (none, { c with
        data := fun j => if j = key then none else c.data j
        keys := c.keys.erase key
        misses := c.misses + 1 })
    else
      (some entry.value, { c with hits := c.hits + 1 })

/-- Model of `TTLCache.set`: stores the value with `expires_at = now + (ttl or
default_ttl)`, unconditionally replacing any previous entry. -/
def TTLCache.set (c : TTLCache α) (now : Nat) (key : String) (value : α)
    (ttl : Option Nat) : TTLCache α :=
  let t := TTLCache.effTtl c.default_ttl ttl
  { c with
    data := fun j => if j = key then
        some { value := value, expires_at := now + t, created_at := now }
      else c.data j
    keys := insert key c.keys
    sets := c.sets + 1 }

/-- Model of `TTLCache.delete`: removes the key if present; reports whether it was. -/
def TTLCache.delete (c : TTLCache α) (key : String) : Bool × TTLCache α :=
  if key ∈ c.keys then
    (true, { c with
      data := fun j => if j = key then none else c.data j
      keys := c.keys.erase key })
  else (false, c)

/-- Model of `TTLCache.get_or_set`: read, and on a miss run the factory (its result
supplied here as the collaborator's answer) and store any non-`None`
result. -/
def TTLCache.get_or_set (c : TTLCache α) (now : Nat) (key : String)
    (factory : Option α) (ttl : Option Nat) : Option α × TTLCache α :=
  match c.get now key with
  | (some v, c1) => (some v, c1)
  | (none, c1) =>
    match factory with
    | some v => (some v, c1.set now key v ttl)
    | none => (none, c1)

/-- The record returned by `TTLCache.stats`: the three counters, the size,
the hit-rate percentage, and its one-decimal rendering in tenths of a
percent (the `f"{hit_rate:.1f}%"` string). -/
structure CacheStats where
  hits : Nat
  misses : Nat
  sets : Nat
  size : Nat
  hit_rate : ℚ
  hit_rate_tenths : ℤ
  deriving Repr, DecidableEq

/-- Model of `TTLCache.stats`: `hit_rate = hits / total * 100` when any lookup has
happened, `0` otherwise, rendered to one decimal place. -/
def TTLCache.stats (c : TTLCache α) : CacheStats :=
  let total := c.hits + c.misses
  let rate : ℚ := if 0 < total then (c.hits : ℚ) / (total : ℚ) * 100 else 0
  { hits := c.hits, misses := c.misses, sets := c.sets
    size := c.keys.card
    hit_rate := rate
    hit_rate_tenths := round (rate * 10) }

/-- The cache operations reachable from the request path. -/
inductive CacheOp (α : Type) where
  | get (now : Nat) (key : String)
  | set (now : Nat) (key : String) (value : α) (ttl : Option Nat)

/-- State transition of one cache operation. -/
def TTLCache.applyOp (c : TTLCache α) : CacheOp α → TTLCache α
  | CacheOp.get now key => (c.get now key).2
  | CacheOp.set now key value ttl => c.set now key value ttl

/-- Run a sequence of cache operations. -/
def TTLCache.applyOps (c : TTLCache α) (ops : List (CacheOp α)) : TTLCache α :=
  ops.foldl TTLCache.applyOp c

/-- Number of reads in the trace that hit a live entry. -/
def hitsIn (c : TTLCache α) : List (CacheOp α) → Nat
  | [] => 0
  | op :: rest =>
    (match op with
     | CacheOp.get now key => if ((c.get now key).1).isSome then 1 else 0
     | CacheOp.set _ _ _ _ => 0) + hitsIn (c.applyOp op) rest

/-- Number of reads in the trace that found nothing live. -/
def missesIn (c : TTLCache α) : List (CacheOp α) → Nat
  | [] => 0
  | op :: rest =>
    (match op with
     | CacheOp.get now key => if ((c.get now key).1).isSome then 0 else 1
     | CacheOp.set _ _ _ _ => 0) + missesIn (c.applyOp op) rest

/-- Number of writes in the trace. -/
def setsIn (c : TTLCache α) : List (CacheOp α) → Nat
  | [] => 0
  | op :: rest =>
    (match op with
     | CacheOp.get _ _ => 0
     | CacheOp.set _ _ _ _ => 1) + setsIn (c.applyOp op) rest

/-! ## Subscription & fan-out hub (`src/websocket/manager.py`) -/

/-- Model of `ConnectionManager._make_sub_key`: `f"{item_name.lower()}:{server_id}"`. -/
def mkSubKey (itemName : String) (serverId : Int) : String :=
  itemName.toLower ++ ":" ++ toString serverId

/-- Hub state: the registry of live connection ids, each connection's own
subscription-key set (`ClientConnection.subscriptions`), the subscription
index (`_subscriptions`, together with the set of keys it holds), and the
running count of successfully sent messages. The per-connection transport
is abstracted by a send-success oracle supplied at broadcast time. -/
@[ext] structure Hub where
  conns : Finset String
  subsOf : String → Finset String
  index : String → Finset String
  indexKeys : Finset String
  msgCount : Nat

/-- Model of `ConnectionManager.__init__`: empty registry and index. -/
def Hub.init : Hub :=
  { conns := ∅, subsOf := fun _ => ∅, index := fun _ => ∅
    indexKeys := ∅, msgCount := 0 }

/-- Model of `ConnectionManager._disconnect_client`: no-op for an unknown id;
otherwise removes the id from the index entry of every key in its own
subscription set (dropping entries left empty) and deletes the
registration. -/
def Hub.disconnectClient (h : Hub) (id : String) : Hub :=
  if id ∈ h.conns then
    { conns := h.conns.erase id
      subsOf := fun j => if j = id then ∅ else h.subsOf j
      index := fun k =>
        if k ∈ h.subsOf id ∧ k ∈ h.indexKeys then (h.index k).erase id
        else h.index k
      indexKeys := h.indexKeys.filter
        fun k => ¬(k ∈ h.subsOf id ∧ (h.index k).erase id = ∅)
      msgCount := h.msgCount }
  else h

/-- Model of `ConnectionManager.disconnect`: the public, idempotent form. -/
def Hub.disconnect (h : Hub) (id : String) : Hub :=
  h.disconnectClient id

/-- Model of `ConnectionManager.connect`: tears down any live registration with the
same id, then installs a fresh connection with an empty subscription set. -/
def Hub.connect (h : Hub) (id : String) : Hub :=
  let h1 := if id ∈ h.conns then h.disconnectClient id else h
  { h1 with
    conns := insert id h1.conns
    subsOf := fun j => if j = id then ∅ else h1.subsOf j }

/-- Model of `ConnectionManager.subscribe`: `False` for an unregistered id;
otherwise adds the id to the key's index entry (creating it if missing)
and the key to the connection's own set. -/
def Hub.subscribe (h : Hub) (id : String) (itemName : String)
    (serverId : Int) : Bool × Hub :=
  let key := mkSubKey itemName serverId
  if id ∈ h.conns then
    (true,
      { h with
        subsOf := fun j => if j = id then insert key (h.subsOf id) else h.subsOf j
        index := fun k =>
          if k = key then insert id (if key ∈ h.indexKeys then h.index key else ∅)
          else h.index k
        indexKeys := insert key h.indexKeys })
  else (false, h)

/-- Model of `ConnectionManager.unsubscribe`: `False` for an unregistered id;
otherwise discards the id from the key's index entry (deleting the entry
if it becomes empty) and the key from the connection's own set. -/
def Hub.unsubscribe (h : Hub) (id : String) (itemName : String)
    (serverId : Int) : Bool × Hub :=
  let key := mkSubKey itemName serverId
  if id ∈ h.conns then
    let h1 :=
      if key ∈ h.indexKeys then
        { h with
          index := fun k => if k = key then (h.index key).erase id else h.index k
          indexKeys :=
            if (h.index key).erase id = ∅ then h.indexKeys.erase key
            else h.indexKeys }
      else h
    (true, { h1 with
      subsOf := fun j => if j = id then (h1.subsOf id).erase key else h1.subsOf j })
  else (false, h)

/-- The `for client_id in failed_clients: await self.disconnect(client_id)`
cleanup loop at the end of both broadcast operations. -/
def Hub.cleanupFailed (h : Hub) (l : List String) : Hub :=
  l.foldl (fun hh i => hh.disconnectClient i) h

/-- Outcome of a broadcast: the returned count of successful sends, the set
of connections the envelope was sent to, the subset whose send succeeded,
and the hub state after dead-connection cleanup. -/
structure BroadcastResult where
  sent : Nat
  sentTo : Finset String
  delivered : Finset String
  hub : Hub

/-- Model of `ConnectionManager.broadcast_item_update`: unions the member sets of
the exact `(itemName, serverId)` key and the wildcard `(itemName, -1)` key,
sends the item-update envelope once to each member still registered,
disconnects every failed recipient, and returns the successful-send
count. `ok` is the per-connection send-success oracle. -/
def Hub.broadcastItemUpdate (h : Hub) (itemName : String) (serverId : Int)
    (ok : String → Bool) : BroadcastResult :=
  let k1 := mkSubKey itemName serverId
  let k2 := mkSubKey itemName (-1)
  let notified : Finset String :=
    (if k1 ∈ h.indexKeys then h.index k1 else ∅) ∪
    (if k2 ∈ h.indexKeys then h.index k2 else ∅)
  let recipients := notified.filter fun i => i ∈ h.conns
  let delivered := recipients.filter fun i => ok i
  let failed := recipients.filter fun i => ¬ ok i
  let h1 := h.cleanupFailed (failed.sort (fun a b => a ≤ b))
  { sent := delivered.card
    sentTo := recipients
    delivered := delivered
    hub := { h1 with msgCount := h1.msgCount + delivered.card } }

/-- Model of `ConnectionManager.broadcast_all`: sends to every registered
connection, with the same failed-send-triggers-disconnect behavior. -/
def Hub.broadcastAll (h : Hub) (ok : String → Bool) : BroadcastResult :=
  let delivered := h.conns.filter fun i => ok i
  let failed := h.conns.filter fun i => ¬ ok i
  let h1 := h.cleanupFailed (failed.sort (fun a b => a ≤ b))
  { sent := delivered.card
    sentTo := h.conns
    delivered := delivered
    hub := { h1 with msgCount := h1.msgCount + delivered.card } }

/-- The hub control operations driven by client control messages. -/
inductive HubOp where
  | connect (id : String)
  | disconnect (id : String)
  | subscribe (id : String) (itemName : String) (serverId : Int)
  | unsubscribe (id : String) (itemName : String) (serverId : Int)

/-- State transition of one hub operation. -/
def Hub.applyOp (h : Hub) : HubOp → Hub
  | HubOp.connect id => h.connect id
  | HubOp.disconnect id => h.disconnect id
  | HubOp.subscribe id itemName serverId => (h.subscribe id itemName serverId).2
  | HubOp.unsubscribe id itemName serverId => (h.unsubscribe id itemName serverId).2

/-- Run a sequence of hub operations. -/
def Hub.applyOps (h : Hub) (ops : List HubOp) : Hub :=
  ops.foldl Hub.applyOp h

/-- A hub state produced from the initial state by some operation
sequence. -/
def Hub.Reachable (h : Hub) : Prop :=
  ∃ ops : List HubOp, Hub.init.applyOps ops = h

/-- The hub's bidirectional-consistency invariant: dead ids own no
subscriptions, a key lives in the index exactly when its member set is
non-empty, a key is in a connection's own set iff the connection's id is
in that key's index entry, and every index member is registered. -/
def Hub.Inv (h : Hub) : Prop :=
  (∀ id, id ∉ h.conns → h.subsOf id = ∅) ∧
  (∀ k, k ∈ h.indexKeys ↔ (h.index k).Nonempty) ∧
  (∀ id k, k ∈ h.subsOf id ↔ id ∈ h.index k) ∧
  (∀ k id, id ∈ h.index k → id ∈ h.conns)

/-! ## Refresh orchestration (`src/api/routes.py`) -/

/-- Model of `Top5Response` as delivered by the Market Data Source
(`GnjoyClient.fetch_top5_items`), with item payloads abstract. -/
structure Top5Result (α : Type) where
  now_date : String
  weapons : List α
  defenses : List α
  consumables : List α
  etcs : List α

/-- The `response_data` dictionary built by `get_top5_items`: the date plus
the four fixed category lists. -/
structure Top5Data (α : Type) where
  date : String
  catW : List α
  catD : List α
  catC : List α
  catE : List α
  deriving DecidableEq

/-- Model of `cached.get(cat_upper, [])` / `response_data.get(cat_upper, [])`:
category lookup with `[]` for an unknown key. -/
def Top5Data.getCat (t : Top5Data α) (cat : String) : List α :=
  if cat = "W" then t.catW
  else if cat = "D" then t.catD
  else if cat = "C" then t.catC
  else if cat = "E" then t.catE
  else []

/-- The possible returns of `get_top5_items`: a cached reply (one category
with the cache TTL, or the whole payload), the stale History Store
fallback, the 503 failure, or a fresh reply. `β` is the History Store's
row type. -/
inductive Top5Reply (α β : Type) where
  | cachedCategory (category : String) (items : List α) (cacheTtl : Nat)
  | cachedAll (data : Top5Data α)
  | stale (items : List β)
  | httpError (code : Nat) (msg : String)
  | freshCategory (category : String) (items : List α)
  | freshAll (data : Top5Data α)
  deriving DecidableEq

/-- Observable outcome of one `get_top5_items` request: the reply, the
top-5 cache state afterwards, the `repo.save_top_items` calls made (in
order), and whether `ws_manager.broadcast_all` was invoked. -/
structure Top5Run (α β : Type) where
  reply : Top5Reply α β
  cache : TTLCache (Top5Data α)
  saved : List (String × List α)
  didBroadcast : Bool

/-- Model of `get_top5_items`: cache check (skipped under `force_refresh`), then the
Market Data Source fetch (its result supplied as `fetchResult`), with the
History Store snapshot `dbSnapshot` as the stale fallback; on success the
normalized payload is cached, persisted per category, and broadcast. -/
def getTop5Items (cache : TTLCache (Top5Data α)) (now : Nat)
    (category : Option String) (forceRefresh : Bool)
    (fetchResult : Option (Top5Result α)) (dbSnapshot : List β) :
    Top5Run α β :=
  let step := if forceRefresh then (none, cache) else cache.get now "top5_all"
  match step with
  | (some data, c1) =>
    match category with
    | some cat =>
      { reply := Top5Reply.cachedCategory cat.toUpper (data.getCat cat.toUpper)
          c1.default_ttl
        cache := c1, saved := [], didBroadcast := false }
    | none =>
      { reply := Top5Reply.cachedAll data, cache := c1
        saved := [], didBroadcast := false }
  | (none, c1) =>
    match fetchResult with
    | none =>
      if dbSnapshot.isEmpty then
        { reply := Top5Reply.httpError 503 "Failed to fetch data from GNJOY"
          cache := c1, saved := [], didBroadcast := false }
      else
        { reply := Top5Reply.stale dbSnapshot, cache := c1
          saved := [], didBroadcast := false }
    | some result =>
      let rd : Top5Data α :=
        { date := result.now_date, catW := result.weapons
          catD := result.defenses, catC := result.consumables
          catE := result.etcs }
      let c2 := c1.set now "top5_all" rd none
      let saved := [("W", result.weapons), ("D", result.defenses),
                    ("C", result.consumables), ("E", result.etcs)]
      match category with
      | some cat =>
        { reply := Top5Reply.freshCategory cat.toUpper (rd.getCat cat.toUpper)
          cache := c2, saved := saved, didBroadcast := true }
      | none =>
        { reply := Top5Reply.freshAll rd, cache := c2
          saved := saved, didBroadcast := true }

/-- Model of `search_items`'s cache key: `f"search:{name.lower()}:{server_id}:{page}"`. -/
def searchCacheKey (name : String) (serverId : Int) (page : Nat) : String :=
  "search:" ++ name.toLower ++ ":" ++ toString serverId ++ ":" ++ toString page

/-- The `response_data` dictionary cached by `search_items`. -/
structure SearchCached (α : Type) where
  items : List α
  total_count : Nat
  has_more : Bool
  deriving DecidableEq

/-- Model of `ItemSearchResponse`: the reply model of `search_items`. -/
structure ItemSearchResponse (α : Type) where
  items : List α
  total_count : Nat
  page : Nat
  has_more : Bool
  deriving DecidableEq

/-- Observable outcome of one `search_items` request: the response, the
item-cache state afterwards, and whether the Market Data Source was
called, `repo.save_deal_items` invoked, and the subscriber broadcast
made. -/
structure SearchRun (α : Type) where
  response : ItemSearchResponse α
  cache : TTLCache (SearchCached α)
  didFetch : Bool
  didSave : Bool
  didBroadcast : Bool

/-- Model of `search_items`: cache check under the derived key (skipped under
`force_refresh`), then the Market Data Source search (its result supplied
as `fetched`); the response is always cached, while the History Store
write and the subscriber broadcast are guarded by `if items:`. -/
def searchItems (cache : TTLCache (SearchCached α)) (now : Nat)
    (name : String) (serverId : Int) (page : Nat) (forceRefresh : Bool)
    (fetched : List α) : SearchRun α :=
  let key := searchCacheKey name serverId page
  let step := if forceRefresh then (none, cache) else cache.get now key
  match step with
  | (some cd, c1) =>
    { response := { items := cd.items, total_count := cd.total_count
                    page := page, has_more := cd.has_more }
      cache := c1, didFetch := false, didSave := false, didBroadcast := false }
  | (none, c1) =>
    let rd : SearchCached α :=
      { items := fetched, total_count := fetched.length
        has_more := decide (20 ≤ fetched.length) }
    let c2 := c1.set now key rd none
    { response := { items := fetched, total_count := fetched.length
                    page := page, has_more := decide (20 ≤ fetched.length) }
      cache := c2, didFetch := true
      didSave := !fetched.isEmpty
      didBroadcast := !fetched.isEmpty }

/-! ## Cache lemmas -/

/-- One read adjusts exactly the matching counter and never the write
counter or the default TTL. -/
lemma get_counters (c : TTLCache α) (now : Nat) (key : String) :
    (c.get now key).2.hits = c.hits + (if ((c.get now key).1).isSome then 1 else 0) ∧
    (c.get now key).2.misses = c.misses + (if ((c.get now key).1).isSome then 0 else 1) ∧
    (c.get now key).2.sets = c.sets := by
  unfold TTLCache.get
  cases hd : c.data key with
  | none => simp
  | some entry =>
    by_cases he : entry.is_expired now <;> simp [he]

/-- A write bumps exactly the write counter. -/
lemma set_counters (c : TTLCache α) (now : Nat) (key : String) (v : α)
    (ttl : Option Nat) :
    (c.set now key v ttl).hits = c.hits ∧
    (c.set now key v ttl).misses = c.misses ∧
    (c.set now key v ttl).sets = c.sets + 1 := by
  simp [TTLCache.set]

/-- Counters after a trace are the starting counters plus the per-event
counts of the trace. -/
lemma counters_applyOps (ops : List (CacheOp α)) (c : TTLCache α) :
    (c.applyOps ops).hits = c.hits + hitsIn c ops ∧
    (c.applyOps ops).misses = c.misses + missesIn c ops ∧
    (c.applyOps ops).sets = c.sets + setsIn c ops := by
  induction ops generalizing c with
  | nil => simp [TTLCache.applyOps, hitsIn, missesIn, setsIn]
  | cons op rest ih =>
    have step : TTLCache.applyOps c (op :: rest)
        = TTLCache.applyOps (c.applyOp op) rest := rfl
    obtain ⟨ihh, ihm, ihs⟩ := ih (c.applyOp op)
    rw [step]
    cases op with
    | get now key =>
      obtain ⟨gh, gm, gs⟩ := get_counters c now key
      have ha : c.applyOp (CacheOp.get now key) = (c.get now key).2 := rfl
      rw [ha] at ihh ihm ihs ⊢
      have eh : hitsIn c (CacheOp.get now key :: rest)
          = (if ((c.get now key).1).isSome then 1 else 0)
            + hitsIn (c.get now key).2 rest := rfl
      have em : missesIn c (CacheOp.get now key :: rest)
          = (if ((c.get now key).1).isSome then 0 else 1)
            + missesIn (c.get now key).2 rest := rfl
      have es : setsIn c (CacheOp.get now key :: rest)
          = 0 + setsIn (c.get now key).2 rest := rfl
      rw [eh, em, es, ihh, ihm, ihs, gh, gm, gs]
      cases hsome : ((c.get now key).1).isSome <;> simp [hsome] <;> omega
    | set now key v ttl =>
      obtain ⟨sh, sm, ss⟩ := set_counters c now key v ttl
      have ha : c.applyOp (CacheOp.set now key v ttl) = c.set now key v ttl := rfl
      rw [ha] at ihh ihm ihs ⊢
      have eh : hitsIn c (CacheOp.set now key v ttl :: rest)
          = 0 + hitsIn (c.set now key v ttl) rest := rfl
      have em : missesIn c (CacheOp.set now key v ttl :: rest)
          = 0 + missesIn (c.set now key v ttl) rest := rfl
      have es : setsIn c (CacheOp.set now key v ttl :: rest)
          = 1 + setsIn (c.set now key v ttl) rest := rfl
      rw [eh, em, es, ihh, ihm, ihs, sh, sm, ss]
      refine ⟨by omega, by omega, by omega⟩

/-- Fact: `set` with a TTL argument of `0` is the same write as `set` with no
TTL argument. -/
lemma set_zero_ttl (c : TTLCache α) (now : Nat) (key : String) (v : α) :
    c.set now key v (some 0) = c.set now key v none := by
  simp [TTLCache.set, TTLCache.effTtl]

/-- C2: after `set(k, v, t)` with a non-zero TTL `t`, a read strictly
before `t` elapses returns the value and counts a hit; a read at or after
expiry returns nothing, counts a miss, and deletes the entry. -/
theorem cache_ttl_expiry (α : Type) (c : TTLCache α) (now : Nat) (k : String)
    (v : α) (t : Nat) (ht : t ≠ 0) (now2 : Nat) :
    (now2 < now + t →
      ((c.set now k v (some t)).get now2 k).1 = some v ∧
      ((c.set now k v (some t)).get now2 k).2.hits = (c.set now k v (some t)).hits + 1 ∧
      ((c.set now k v (some t)).get now2 k).2.misses = (c.set now k v (some t)).misses) ∧
    (now + t ≤ now2 →
      ((c.set now k v (some t)).get now2 k).1 = none ∧
      ((c.set now k v (some t)).get now2 k).2.misses = (c.set now k v (some t)).misses + 1 ∧
      ((c.set now k v (some t)).get now2 k).2.hits = (c.set now k v (some t)).hits ∧
      ((c.set now k v (some t)).get now2 k).2.data k = none) := by
  constructor
  · intro hlt
    simp [TTLCache.set, TTLCache.get, TTLCache.effTtl, CacheEntry.is_expired,
      ht, Nat.not_le.mpr hlt]
  · intro hle
    simp [TTLCache.set, TTLCache.get, TTLCache.effTtl, CacheEntry.is_expired,
      ht, hle]

/-- C2 witness: key `"a"`, value `7`, TTL `5` set at time `0` on a fresh
cache, read back at time `3` (hit) and probed at time `5` (expiry). -/
theorem cache_ttl_expiry_witness :
    ((3 : Nat) < 0 + 5 ∧
      (((TTLCache.init Nat 60).set 0 "a" 7 (some 5)).get 3 "a").1 = some 7) ∧
    ((0 + 5 ≤ (5 : Nat)) ∧
      (((TTLCache.init Nat 60).set 0 "a" 7 (some 5)).get 5 "a").1 = none ∧
      (((TTLCache.init Nat 60).set 0 "a" 7 (some 5)).get 5 "a").2.data "a" = none) := by
  have h3 := cache_ttl_expiry Nat (TTLCache.init Nat 60) 0 "a" 7 5 (by decide) 3
  have h5 := cache_ttl_expiry Nat (TTLCache.init Nat 60) 0 "a" 7 5 (by decide) 5
  refine ⟨⟨by decide, (h3.1 (by decide)).1⟩, by decide,
    (h5.2 (by decide)).1, (h5.2 (by decide)).2.2.2⟩

/-- C9: on any operation trace from a fresh cache, `stats` reports the
exact hit, miss, and set event counts, and a hit rate of
`hits / (hits + misses) * 100` (rendered to one decimal place as tenths of
a percent), `0` when no lookup has happened. -/
theorem cache_stats_hit_rate (α : Type) (d : Nat) (ops : List (CacheOp α)) :
    ((TTLCache.init α d).applyOps ops).stats.hits
        = hitsIn (TTLCache.init α d) ops ∧
    ((TTLCache.init α d).applyOps ops).stats.misses
        = missesIn (TTLCache.init α d) ops ∧
    ((TTLCache.init α d).applyOps ops).stats.sets
        = setsIn (TTLCache.init α d) ops ∧
    (hitsIn (TTLCache.init α d) ops + missesIn (TTLCache.init α d) ops = 0 →
      ((TTLCache.init α d).applyOps ops).stats.hit_rate = 0 ∧
      ((TTLCache.init α d).applyOps ops).stats.hit_rate_tenths = 0) ∧
    (0 < hitsIn (TTLCache.init α d) ops + missesIn (TTLCache.init α d) ops →
      ((TTLCache.init α d).applyOps ops).stats.hit_rate
          = (hitsIn (TTLCache.init α d) ops : ℚ)
            / ((hitsIn (TTLCache.init α d) ops : ℚ)
               + (missesIn (TTLCache.init α d) ops : ℚ)) * 100 ∧
      ((TTLCache.init α d).applyOps ops).stats.hit_rate_tenths
          = round ((hitsIn (TTLCache.init α d) ops : ℚ)
            / ((hitsIn (TTLCache.init α d) ops : ℚ)
               + (missesIn (TTLCache.init α d) ops : ℚ)) * 100 * 10)) := by
  obtain ⟨hh, hm, hs⟩ := counters_applyOps ops (TTLCache.init α d)
  have hh0 : ((TTLCache.init α d).applyOps ops).hits
      = hitsIn (TTLCache.init α d) ops := by
    simpa [TTLCache.init] using hh
  have hm0 : ((TTLCache.init α d).applyOps ops).misses
      = missesIn (TTLCache.init α d) ops := by
    simpa [TTLCache.init] using hm
  have hs0 : ((TTLCache.init α d).applyOps ops).sets
      = setsIn (TTLCache.init α d) ops := by
    simpa [TTLCache.init] using hs
  refine ⟨by simp [TTLCache.stats, hh0], by simp [TTLCache.stats, hm0],
    by simp [TTLCache.stats, hs0], ?_, ?_⟩
  · intro hz
    have hz0 : ((TTLCache.init α d).applyOps ops).hits
        + ((TTLCache.init α d).applyOps ops).misses = 0 := by
      rw [hh0, hm0]; exact hz
    simp [TTLCache.stats, hz0]
  · intro hpos
    constructor
    · simp only [TTLCache.stats, hh0, hm0]
      rw [if_pos hpos]
      push_cast
      ring
    · simp only [TTLCache.stats, hh0, hm0]
      rw [if_pos hpos]
      congr 1
      push_cast
      ring

/-- C9 witness: a trace with one write, one hit and one expired read
reports counters `1/1/1` and a hit rate of `50.0%`. -/
theorem cache_stats_hit_rate_witness :
    (((TTLCache.init Nat 60).applyOps
        [CacheOp.set 0 "a" 7 none, CacheOp.get 1 "a", CacheOp.get 100 "a"]).stats.hits
      = hitsIn (TTLCache.init Nat 60)
        [CacheOp.set 0 "a" 7 none, CacheOp.get 1 "a", CacheOp.get 100 "a"]) ∧
    (0 < hitsIn (TTLCache.init Nat 60)
        [CacheOp.set 0 "a" 7 none, CacheOp.get 1 "a", CacheOp.get 100 "a"]
        + missesIn (TTLCache.init Nat 60)
        [CacheOp.set 0 "a" 7 none, CacheOp.get 1 "a", CacheOp.get 100 "a"]) ∧
    ((TTLCache.init Nat 60).applyOps
        [CacheOp.set 0 "a" 7 none, CacheOp.get 1 "a", CacheOp.get 100 "a"]).stats.hit_rate_tenths
      = 500 := by
  have h := cache_stats_hit_rate Nat 60
    [CacheOp.set 0 "a" 7 none, CacheOp.get 1 "a", CacheOp.get 100 "a"]
  have hc : hitsIn (TTLCache.init Nat 60)
      [CacheOp.set 0 "a" 7 none, CacheOp.get 1 "a", CacheOp.get 100 "a"] = 1 ∧
      missesIn (TTLCache.init Nat 60)
      [CacheOp.set 0 "a" 7 none, CacheOp.get 1 "a", CacheOp.get 100 "a"] = 1 := by
    constructor <;> rfl
  refine ⟨h.1, ?_, ?_⟩
  · rw [hc.1, hc.2]; omega
  · have := (h.2.2.2.2 (by rw [hc.1, hc.2]; omega)).2
    rw [this, hc.1, hc.2]
    norm_num [round_eq]

/-- C10: a TTL argument of `0` (like an absent one) falls back to the
default TTL — through `set` and through `get_or_set` — so no caller of the
public interface can store an already-expired entry (the effective TTL is
always positive when the default is). -/
theorem set_zero_ttl_default (α : Type) (c : TTLCache α) (now : Nat)
    (k : String) (v : α) (f : Option α) (hd : 0 < c.default_ttl) :
    c.set now k v (some 0) = c.set now k v none ∧
    (c.set now k v (some 0)).data k
      = some { value := v, expires_at := now + c.default_ttl, created_at := now } ∧
    c.get_or_set now k f (some 0) = c.get_or_set now k f none ∧
    (∀ t : Option Nat, 0 < TTLCache.effTtl c.default_ttl t) := by
  refine ⟨set_zero_ttl c now k v, ?_, ?_, ?_⟩
  · simp [TTLCache.set, TTLCache.effTtl]
  · simp only [TTLCache.get_or_set]
    rcases hg : c.get now k with ⟨ov, c1⟩
    cases ov with
    | none => cases f with
      | none => rfl
      | some w => simp [set_zero_ttl]
    | some w => rfl
  · intro t
    cases t with
    | none => simpa [TTLCache.effTtl] using hd
    | some t0 =>
      by_cases h0 : t0 = 0 <;> simp [TTLCache.effTtl, h0] <;> omega

/-- C10 witness: on a fresh cache with default TTL `60`, writing `"a"` at
time `0` with TTL `0` stores an entry expiring at `60`. -/
theorem set_zero_ttl_default_witness :
    (0 : Nat) < (TTLCache.init Nat 60).default_ttl ∧
    ((TTLCache.init Nat 60).set 0 "a" 7 (some 0)
      = (TTLCache.init Nat 60).set 0 "a" 7 none) ∧
    ((TTLCache.init Nat 60).set 0 "a" 7 (some 0)).data "a"
      = some { value := 7, expires_at := 0 + 60, created_at := 0 } := by
  have h := set_zero_ttl_default Nat (TTLCache.init Nat 60) 0 "a" 7 none
    (by decide)
  exact ⟨by decide, h.1, by simpa [TTLCache.init] using h.2.1⟩

/-! ## Hub lemmas -/

/-- The initial hub satisfies the consistency invariant. -/
lemma inv_init : Hub.init.Inv := by
  refine ⟨fun id _ => rfl, fun k => ?_, fun id k => ?_, fun k id hk => ?_⟩
  · simp [Hub.init]
  · simp [Hub.init]
  · simp [Hub.init] at hk

/-- Fact: `_disconnect_client` always leaves the registry without the id. -/
lemma disconnectClient_conns (h : Hub) (id : String) :
    (h.disconnectClient id).conns = h.conns.erase id := by
  unfold Hub.disconnectClient
  by_cases hc : id ∈ h.conns
  · simp [hc]
  · simp [hc, Finset.erase_eq_of_not_mem hc]

/-- Fact: `_disconnect_client` never adds a member to an index entry. -/
lemma disconnectClient_index_subset (h : Hub) (id : String) (k : String) :
    (h.disconnectClient id).index k ⊆ h.index k := by
  unfold Hub.disconnectClient
  by_cases hc : id ∈ h.conns
  · simp only [if_pos hc]
    by_cases hcond : k ∈ h.subsOf id ∧ k ∈ h.indexKeys
    · simp only [if_pos hcond]
      exact Finset.erase_subset id (h.index k)
    · simp only [if_neg hcond]
      exact Finset.Subset.refl _
  · simp [hc]

/-- Under the invariant, `_disconnect_client` removes the id from every
index entry. -/
lemma disconnectClient_not_mem_index (h : Hub) (id : String) (hi : h.Inv)
    (k : String) : id ∉ (h.disconnectClient id).index k := by
  obtain ⟨i1, i2, i3, i4⟩ := hi
  unfold Hub.disconnectClient
  by_cases hc : id ∈ h.conns
  · simp only [if_pos hc]
    by_cases hcond : k ∈ h.subsOf id ∧ k ∈ h.indexKeys
    · simp only [if_pos hcond]
      exact Finset.not_mem_erase id (h.index k)
    · simp only [if_neg hcond]
      intro hmem
      exact hcond ⟨(i3 id k).mpr hmem, (i2 k).mpr ⟨id, hmem⟩⟩
  · simp only [if_neg hc]
    intro hmem
    exact hc (i4 k id hmem)

/-- Fact: `_disconnect_client` preserves the consistency invariant. -/
lemma inv_disconnectClient (h : Hub) (id : String) (hi : h.Inv) :
    (h.disconnectClient id).Inv := by
  obtain ⟨i1, i2, i3, i4⟩ := hi
  unfold Hub.disconnectClient
  by_cases hc : id ∈ h.conns
  · simp only [if_pos hc]
    refine ⟨?_, ?_, ?_, ?_⟩
    · intro j hj
      by_cases hji : j = id
      · simp [hji]
      · simp only [if_neg hji]
        refine i1 j fun hjc => hj (Finset.mem_erase.mpr ⟨hji, hjc⟩)
    · intro k
      by_cases hcond : k ∈ h.subsOf id ∧ k ∈ h.indexKeys
      · simp only [if_pos hcond, Finset.mem_filter]
        constructor
        · rintro ⟨-, hk2⟩
          refine Finset.nonempty_iff_ne_empty.mpr fun he => hk2 ⟨hcond.1, he⟩
        · intro hne
          exact ⟨hcond.2, fun hco => (Finset.nonempty_iff_ne_empty.mp hne) hco.2⟩
      · simp only [if_neg hcond, Finset.mem_filter]
        by_cases hks : k ∈ h.subsOf id
        · have hki : k ∉ h.indexKeys := fun hk => hcond ⟨hks, hk⟩
          have hemp : h.index k = ∅ :=
            Finset.not_nonempty_iff_eq_empty.mp fun hne => hki ((i2 k).mpr hne)
          simp [hki, hemp]
        · constructor
          · rintro ⟨hk1, -⟩
            exact (i2 k).mp hk1
          · intro hne
            exact ⟨(i2 k).mpr hne, fun hco => hks hco.1⟩
    · intro j k
      by_cases hji : j = id
      · rw [hji]
        constructor
        · intro hks
          simp at hks
        · intro hmem
          exfalso
          by_cases hcond : k ∈ h.subsOf id ∧ k ∈ h.indexKeys
          · simp only [if_pos hcond] at hmem
            exact absurd hmem (Finset.not_mem_erase id (h.index k))
          · simp only [if_neg hcond] at hmem
            exact hcond ⟨(i3 id k).mpr hmem, (i2 k).mpr ⟨id, hmem⟩⟩
      · simp only [if_neg hji]
        by_cases hcond : k ∈ h.subsOf id ∧ k ∈ h.indexKeys
        · simp only [if_pos hcond, Finset.mem_erase]
          constructor
          · intro hks
            exact ⟨hji, (i3 j k).mp hks⟩
          · rintro ⟨-, hjk⟩
            exact (i3 j k).mpr hjk
        · simp only [if_neg hcond]
          exact i3 j k
    · intro k j hj
      by_cases hcond : k ∈ h.subsOf id ∧ k ∈ h.indexKeys
      · simp only [if_pos hcond, Finset.mem_erase] at hj
        exact Finset.mem_erase.mpr ⟨hj.1, i4 k j hj.2⟩
      · simp only [if_neg hcond] at hj
        refine Finset.mem_erase.mpr ⟨?_, i4 k j hj⟩
        rintro rfl
        exact hcond ⟨(i3 j k).mpr hj, (i2 k).mpr ⟨j, hj⟩⟩
  · simpa [if_neg hc] using ⟨i1, i2, i3, i4⟩

/-- Fact: `connect` preserves the consistency invariant. -/
lemma inv_connect (h : Hub) (id : String) (hi : h.Inv) : (h.connect id).Inv := by
  unfold Hub.connect
  by_cases hc : id ∈ h.conns
  · simp only [if_pos hc]
    obtain ⟨i1, i2, i3, i4⟩ := inv_disconnectClient h id hi
    have hnid := disconnectClient_not_mem_index h id hi
    refine ⟨?_, i2, ?_, ?_⟩
    · intro j hj
      have hji : ¬ j = id := by
        rintro rfl
        exact hj (Finset.mem_insert_self j _)
      have hjc : j ∉ (h.disconnectClient id).conns :=
        fun hm => hj (Finset.mem_insert_of_mem hm)
      simp [hji, i1 j hjc]
    · intro j k
      by_cases hji : j = id
      · simp [hji, (hnid k : id ∉ (h.disconnectClient id).index k)]
      · simp [hji, i3 j k]
    · intro k j hj
      exact Finset.mem_insert_of_mem (i4 k j hj)
  · simp only [if_neg hc]
    obtain ⟨i1, i2, i3, i4⟩ := hi
    refine ⟨?_, i2, ?_, ?_⟩
    · intro j hj
      have hji : ¬ j = id := by
        rintro rfl
        exact hj (Finset.mem_insert_self j _)
      have hjc : j ∉ h.conns := fun hm => hj (Finset.mem_insert_of_mem hm)
      simp [hji, i1 j hjc]
    · intro j k
      by_cases hji : j = id
      · have hni : id ∉ h.index k := fun hm => hc (i4 k id hm)
        simp [hji, hni]
      · simp [hji, i3 j k]
    · intro k j hj
      exact Finset.mem_insert_of_mem (i4 k j hj)

/-- Fact: `subscribe` preserves the consistency invariant. -/
lemma inv_subscribe (h : Hub) (id : String) (itemName : String) (serverId : Int)
    (hi : h.Inv) : ((h.subscribe id itemName serverId).2).Inv := by
  obtain ⟨i1, i2, i3, i4⟩ := hi
  unfold Hub.subscribe
  by_cases hc : id ∈ h.conns
  · simp only [if_pos hc]
    have hcur : (if mkSubKey itemName serverId ∈ h.indexKeys then
        h.index (mkSubKey itemName serverId) else ∅)
        = h.index (mkSubKey itemName serverId) := by
      by_cases hk : mkSubKey itemName serverId ∈ h.indexKeys
      · simp [hk]
      · have he : h.index (mkSubKey itemName serverId) = ∅ :=
          Finset.not_nonempty_iff_eq_empty.mp
            fun hne => hk ((i2 (mkSubKey itemName serverId)).mpr hne)
        simp [hk, he]
    refine ⟨?_, ?_, ?_, ?_⟩
    · intro j hj
      have hji : ¬ j = id := by
        rintro rfl
        exact hj hc
      simp [hji, i1 j hj]
    · intro k
      by_cases hkk : k = mkSubKey itemName serverId
      · simp [hkk, hcur]
      · simp [hkk, i2 k]
    · intro j k
      by_cases hji : j = id <;> by_cases hkk : k = mkSubKey itemName serverId <;>
        simp [hji, hkk, hcur, i3, Finset.mem_insert]
    · intro k j hj
      show j ∈ h.conns
      by_cases hkk : k = mkSubKey itemName serverId
      · simp [hkk, hcur] at hj
        rcases hj with rfl | hj
        · exact hc
        · exact i4 _ j hj
      · simp [hkk] at hj
        exact i4 k j hj
  · simpa [if_neg hc] using ⟨i1, i2, i3, i4⟩

/-- Fact: `unsubscribe` preserves the consistency invariant. -/
lemma inv_unsubscribe (h : Hub) (id : String) (itemName : String)
    (serverId : Int) (hi : h.Inv) :
    ((h.unsubscribe id itemName serverId).2).Inv := by
  obtain ⟨i1, i2, i3, i4⟩ := hi
  unfold Hub.unsubscribe
  by_cases hc : id ∈ h.conns
  · simp only [if_pos hc]
    by_cases hk : mkSubKey itemName serverId ∈ h.indexKeys
    · simp only [if_pos hk]
      refine ⟨?_, ?_, ?_, ?_⟩
      · intro j hj
        have hji : ¬ j = id := by
          rintro rfl
          exact hj hc
        simp [hji, i1 j hj]
      · intro k
        by_cases hkk : k = mkSubKey itemName serverId <;>
          by_cases hemp : (h.index (mkSubKey itemName serverId)).erase id = ∅ <;>
          simp [hkk, hemp, hk, i2 k, Finset.nonempty_iff_ne_empty]
      · intro j k
        by_cases hji : j = id <;> by_cases hkk : k = mkSubKey itemName serverId <;>
          simp [hji, hkk, i3, Finset.mem_erase]
      · intro k j hj
        show j ∈ h.conns
        by_cases hkk : k = mkSubKey itemName serverId
        · simp [hkk] at hj
          exact i4 _ j hj.2
        · simp [hkk] at hj
          exact i4 k j hj
    · simp only [if_neg hk]
      have hemp : h.index (mkSubKey itemName serverId) = ∅ :=
        Finset.not_nonempty_iff_eq_empty.mp
          fun hne => hk ((i2 (mkSubKey itemName serverId)).mpr hne)
      refine ⟨?_, i2, ?_, i4⟩
      · intro j hj
        have hji : ¬ j = id := by
          rintro rfl
          exact hj hc
        simp [hji, i1 j hj]
      · intro j k
        by_cases hji : j = id <;> by_cases hkk : k = mkSubKey itemName serverId <;>
          simp [hji, hkk, i3, hemp, Finset.mem_erase]
  · simpa [if_neg hc] using ⟨i1, i2, i3, i4⟩

/-- The dead-connection cleanup loop: it preserves the invariant, removes
exactly the listed ids from the registry, only shrinks index entries, and
leaves no listed id in any index entry. -/
lemma cleanupFailed_spec (l : List String) (h : Hub) (hi : h.Inv) :
    (h.cleanupFailed l).Inv ∧
    (h.cleanupFailed l).conns = h.conns \ l.toFinset ∧
    (∀ k, (h.cleanupFailed l).index k ⊆ h.index k) ∧
    (∀ i ∈ l, ∀ k, i ∉ (h.cleanupFailed l).index k) := by
  induction l generalizing h with
  | nil =>
    simp [Hub.cleanupFailed, hi]
  | cons a t ih =>
    have step : h.cleanupFailed (a :: t) = (h.disconnectClient a).cleanupFailed t := rfl
    obtain ⟨ih1, ih2, ih3, ih4⟩ := ih (h.disconnectClient a) (inv_disconnectClient h a hi)
    refine ⟨by rw [step]; exact ih1, ?_, ?_, ?_⟩
    · rw [step, ih2, disconnectClient_conns]
      ext x
      simp only [Finset.mem_sdiff, Finset.mem_erase, List.toFinset_cons,
        Finset.mem_insert, List.mem_toFinset, ne_eq]
      constructor
      · rintro ⟨⟨hxa, hxc⟩, hxt⟩
        exact ⟨hxc, fun hor => hor.elim hxa hxt⟩
      · rintro ⟨hxc, hnor⟩
        exact ⟨⟨fun he => hnor (Or.inl he), hxc⟩, fun ht => hnor (Or.inr ht)⟩
    · intro k
      rw [step]
      exact (ih3 k).trans (disconnectClient_index_subset h a k)
    · intro i hmem k
      rw [step]
      rcases List.mem_cons.mp hmem with rfl | ht
      · intro hcontra
        exact disconnectClient_not_mem_index h i hi k (ih3 k hcontra)
      · exact ih4 i ht k

/-- Every hub operation preserves the consistency invariant. -/
lemma inv_applyOp (h : Hub) (op : HubOp) (hi : h.Inv) : (h.applyOp op).Inv := by
  cases op with
  | connect id => exact inv_connect h id hi
  | disconnect id => exact inv_disconnectClient h id hi
  | subscribe id itemName serverId => exact inv_subscribe h id itemName serverId hi
  | unsubscribe id itemName serverId => exact inv_unsubscribe h id itemName serverId hi

/-- Operation sequences preserve the consistency invariant. -/
lemma inv_applyOps (ops : List HubOp) (h : Hub) (hi : h.Inv) :
    (h.applyOps ops).Inv := by
  induction ops generalizing h with
  | nil => exact hi
  | cons op rest ih => exact ih (h.applyOp op) (inv_applyOp h op hi)

/-- Every reachable hub state satisfies the consistency invariant. -/
lemma reachable_inv (h : Hub) (hr : h.Reachable) : h.Inv := by
  obtain ⟨ops, rfl⟩ := hr
  exact inv_applyOps ops Hub.init inv_init

/-- Subscribing a registered id twice to the same key produces the very
same hub state as subscribing once. -/
lemma subscribe_twice (h : Hub) (id : String) (itemName : String)
    (serverId : Int) (hc : id ∈ h.conns) :
    (h.subscribe id itemName serverId).2.subscribe id itemName serverId
      = h.subscribe id itemName serverId := by
  simp only [Hub.subscribe, if_pos hc]
  split
  case isTrue hmem =>
    refine congrArg (Prod.mk true) ?_
    refine Hub.ext ?_ ?_ ?_ ?_ ?_
    · rfl
    · funext j
      by_cases hji : j = id <;> simp [hji]
    · funext k
      by_cases hkk : k = mkSubKey itemName serverId <;>
        simp [hkk, Finset.mem_insert]
    · simp [Finset.insert_idem]
    · rfl
  case isFalse hmem => exact absurd trivial hmem

/-- C4: in every hub state reachable by connect / disconnect / subscribe /
unsubscribe sequences, a key is in a connection's own subscription set iff
the connection's id is in that key's index entry, and every key present in
the index has a non-empty member set. -/
theorem hub_bidirectional_invariant (ops : List HubOp) :
    (∀ id k, k ∈ (Hub.init.applyOps ops).subsOf id
        ↔ id ∈ (Hub.init.applyOps ops).index k) ∧
    (∀ k, k ∈ (Hub.init.applyOps ops).indexKeys
        → ((Hub.init.applyOps ops).index k).Nonempty) := by
  obtain ⟨-, i2, i3, -⟩ := inv_applyOps ops Hub.init inv_init
  exact ⟨i3, fun k hk => (i2 k).mp hk⟩

/-- C7: reconnecting an already-registered id tears the old registration
down first — afterwards the id is registered with an empty subscription
set, appears in no index entry, and no emptied index entry is left
behind. -/
theorem reconnect_teardown (h : Hub) (hr : h.Reachable) (id : String)
    (hc : id ∈ h.conns) :
    id ∈ (h.connect id).conns ∧
    (h.connect id).subsOf id = ∅ ∧
    (∀ k, id ∉ (h.connect id).index k) ∧
    (∀ k, k ∈ (h.connect id).indexKeys → ((h.connect id).index k).Nonempty) := by
  have hi := reachable_inv h hr
  have hd := inv_disconnectClient h id hi
  have hnid := disconnectClient_not_mem_index h id hi
  unfold Hub.connect
  simp only [if_pos hc]
  refine ⟨Finset.mem_insert_self id _, by simp, fun k => hnid k,
    fun k hk => (hd.2.1 k).mp hk⟩

/-- C7 witness: a hub where `"a"` is connected and subscribed to
`("x", 1)`; reconnecting `"a"` clears its subscription. -/
theorem reconnect_teardown_witness :
    (Hub.init.applyOps [HubOp.connect "a", HubOp.subscribe "a" "x" 1]).Reachable ∧
    "a" ∈ (Hub.init.applyOps [HubOp.connect "a", HubOp.subscribe "a" "x" 1]).conns ∧
    ((Hub.init.applyOps [HubOp.connect "a", HubOp.subscribe "a" "x" 1]).connect "a").subsOf "a" = ∅ ∧
    "a" ∉ ((Hub.init.applyOps [HubOp.connect "a", HubOp.subscribe "a" "x" 1]).connect "a").index (mkSubKey "x" 1) := by
  have hr : (Hub.init.applyOps [HubOp.connect "a", HubOp.subscribe "a" "x" 1]).Reachable :=
    ⟨[HubOp.connect "a", HubOp.subscribe "a" "x" 1], rfl⟩
  have hc : "a" ∈ (Hub.init.applyOps [HubOp.connect "a", HubOp.subscribe "a" "x" 1]).conns := by
    decide
  have ht := reconnect_teardown _ hr "a" hc
  exact ⟨hr, hc, ht.2.1, ht.2.2.1 (mkSubKey "x" 1)⟩

/-- C8: subscribe and unsubscribe return `false` and change nothing for an
unregistered id; for a registered id both return `true`, subscribing twice
equals subscribing once, the single subscription is present in both
directions, and one unsubscribe fully removes it. -/
theorem subscription_idempotence (h : Hub) (id : String) (itemName : String)
    (serverId : Int) :
    (id ∉ h.conns →
      h.subscribe id itemName serverId = (false, h) ∧
      h.unsubscribe id itemName serverId = (false, h)) ∧
    (id ∈ h.conns →
      (h.subscribe id itemName serverId).1 = true ∧
      (h.unsubscribe id itemName serverId).1 = true ∧
      (h.subscribe id itemName serverId).2.subscribe id itemName serverId
        = h.subscribe id itemName serverId ∧
      id ∈ ((h.subscribe id itemName serverId).2).index (mkSubKey itemName serverId) ∧
      mkSubKey itemName serverId ∈ ((h.subscribe id itemName serverId).2).subsOf id ∧
      id ∉ (((h.subscribe id itemName serverId).2).unsubscribe id itemName serverId).2.index
        (mkSubKey itemName serverId) ∧
      mkSubKey itemName serverId ∉
        (((h.subscribe id itemName serverId).2).unsubscribe id itemName serverId).2.subsOf id) := by
  constructor
  · intro hnc
    exact ⟨by simp [Hub.subscribe, hnc], by simp [Hub.unsubscribe, hnc]⟩
  · intro hc
    refine ⟨by simp [Hub.subscribe, hc], by simp [Hub.unsubscribe, hc],
      subscribe_twice h id itemName serverId hc, ?_, ?_, ?_, ?_⟩
    · simp [Hub.subscribe, hc]
    · simp [Hub.subscribe, hc]
    · simp [Hub.subscribe, Hub.unsubscribe, hc]
    · simp [Hub.subscribe, Hub.unsubscribe, hc]

/-- C8 witness: with `"a"` registered and `"b"` unknown, subscribing `"a"`
to `("x", 1)` twice equals once, one unsubscribe removes it, and `"b"`'s
attempts are rejected without a state change. -/
theorem subscription_idempotence_witness :
    ("b" ∉ (Hub.init.connect "a").conns ∧
      (Hub.init.connect "a").subscribe "b" "x" 1 = (false, Hub.init.connect "a")) ∧
    ("a" ∈ (Hub.init.connect "a").conns ∧
      ((Hub.init.connect "a").subscribe "a" "x" 1).2.subscribe "a" "x" 1
        = (Hub.init.connect "a").subscribe "a" "x" 1 ∧
      "a" ∈ (((Hub.init.connect "a").subscribe "a" "x" 1).2).index (mkSubKey "x" 1) ∧
      "a" ∉ ((((Hub.init.connect "a").subscribe "a" "x" 1).2).unsubscribe "a" "x" 1).2.index
        (mkSubKey "x" 1)) := by
  have hb : "b" ∉ (Hub.init.connect "a").conns := by decide
  have ha : "a" ∈ (Hub.init.connect "a").conns := by decide
  have h1 := (subscription_idempotence (Hub.init.connect "a") "b" "x" 1).1 hb
  have h2 := (subscription_idempotence (Hub.init.connect "a") "a" "x" 1).2 ha
  exact ⟨⟨hb, h1.1⟩, ha, h2.2.2.1, h2.2.2.2.1, h2.2.2.2.2.2.1⟩

/-- Under the invariant, the broadcast send set is exactly the union of the
exact key's and the wildcard key's index entries. -/
lemma broadcast_sentTo_eq (h : Hub) (hi : h.Inv) (itemName : String)
    (serverId : Int) (ok : String → Bool) :
    (h.broadcastItemUpdate itemName serverId ok).sentTo
      = h.index (mkSubKey itemName serverId) ∪ h.index (mkSubKey itemName (-1)) := by
  obtain ⟨i1, i2, i3, i4⟩ := hi
  have junk : ∀ k, (if k ∈ h.indexKeys then h.index k else ∅) = h.index k := by
    intro k
    by_cases hk : k ∈ h.indexKeys
    · simp [hk]
    · have he : h.index k = ∅ :=
        Finset.not_nonempty_iff_eq_empty.mp fun hne => hk ((i2 k).mpr hne)
      simp [hk, he]
  show (((if mkSubKey itemName serverId ∈ h.indexKeys then
        h.index (mkSubKey itemName serverId) else ∅) ∪
      (if mkSubKey itemName (-1) ∈ h.indexKeys then
        h.index (mkSubKey itemName (-1)) else ∅)).filter fun i => i ∈ h.conns)
      = h.index (mkSubKey itemName serverId) ∪ h.index (mkSubKey itemName (-1))
  rw [junk, junk]
  refine Finset.filter_true_of_mem ?_
  intro i hiu
  rcases Finset.mem_union.mp hiu with hm | hm
  · exact i4 _ i hm
  · exact i4 _ i hm

/-- The cleanup loop over the sorted elements of a failed set: registry
becomes the difference, and no failed id stays in any index entry. -/
lemma cleanup_sorted (h : Hub) (hi : h.Inv) (f : Finset String) :
    (h.cleanupFailed (f.sort fun a b => a ≤ b)).conns = h.conns \ f ∧
    (∀ i ∈ f, ∀ k, i ∉ (h.cleanupFailed (f.sort fun a b => a ≤ b)).index k) := by
  obtain ⟨-, h2, -, h4⟩ := cleanupFailed_spec (f.sort fun a b => a ≤ b) h hi
  constructor
  · rw [h2]
    congr 1
    exact Finset.sort_toFinset _ f
  · intro i hif k
    exact h4 i ((Finset.mem_sort _).mpr hif) k

/-- C3: on a reachable hub, a broadcast for a concrete server id is sent
exactly once to each member of the exact key's entry unioned with the
wildcard key's entry, and the returned count is the number of successful
sends. -/
theorem broadcast_wildcard_fanout (h : Hub) (hr : h.Reachable)
    (itemName : String) (serverId : Int) (hs : serverId ≠ -1)
    (ok : String → Bool) :
    (h.broadcastItemUpdate itemName serverId ok).sentTo
      = h.index (mkSubKey itemName serverId) ∪ h.index (mkSubKey itemName (-1)) ∧
    (h.broadcastItemUpdate itemName serverId ok).delivered
      = ((h.index (mkSubKey itemName serverId)
          ∪ h.index (mkSubKey itemName (-1))).filter fun i => ok i) ∧
    (h.broadcastItemUpdate itemName serverId ok).sent
      = ((h.index (mkSubKey itemName serverId)
          ∪ h.index (mkSubKey itemName (-1))).filter fun i => ok i).card := by
  have hst := broadcast_sentTo_eq h (reachable_inv h hr) itemName serverId ok
  have hdel : (h.broadcastItemUpdate itemName serverId ok).delivered
      = (h.broadcastItemUpdate itemName serverId ok).sentTo.filter fun i => ok i := rfl
  have hsent : (h.broadcastItemUpdate itemName serverId ok).sent
      = (h.broadcastItemUpdate itemName serverId ok).delivered.card := rfl
  refine ⟨hst, ?_, ?_⟩
  · rw [hdel, hst]
  · rw [hsent, hdel, hst]

/-- C3 witness: `"a"` subscribed to `("X", 2)` and `"b"` to the wildcard
`("X", -1)`; a broadcast for `("X", 2)` targets exactly the union of both
entries. -/
theorem broadcast_wildcard_fanout_witness :
    (Hub.init.applyOps [HubOp.connect "a", HubOp.connect "b",
        HubOp.subscribe "a" "X" 2, HubOp.subscribe "b" "X" (-1)]).Reachable ∧
    (2 : Int) ≠ -1 ∧
    ((Hub.init.applyOps [HubOp.connect "a", HubOp.connect "b",
        HubOp.subscribe "a" "X" 2, HubOp.subscribe "b" "X" (-1)]).broadcastItemUpdate
        "X" 2 (fun _ => true)).sentTo
      = (Hub.init.applyOps [HubOp.connect "a", HubOp.connect "b",
          HubOp.subscribe "a" "X" 2, HubOp.subscribe "b" "X" (-1)]).index (mkSubKey "X" 2)
        ∪ (Hub.init.applyOps [HubOp.connect "a", HubOp.connect "b",
          HubOp.subscribe "a" "X" 2, HubOp.subscribe "b" "X" (-1)]).index (mkSubKey "X" (-1)) := by
  have hr : (Hub.init.applyOps [HubOp.connect "a", HubOp.connect "b",
      HubOp.subscribe "a" "X" 2, HubOp.subscribe "b" "X" (-1)]).Reachable :=
    ⟨[HubOp.connect "a", HubOp.connect "b",
      HubOp.subscribe "a" "X" 2, HubOp.subscribe "b" "X" (-1)], rfl⟩
  exact ⟨hr, by decide,
    (broadcast_wildcard_fanout _ hr "X" 2 (by decide) (fun _ => true)).1⟩

/-- C6: on a reachable hub, every connection whose send fails during
either broadcast form is dropped from the registry and from every index
entry, while delivery to every other connection is unaffected. -/
theorem dead_connection_eviction (h : Hub) (hr : h.Reachable)
    (itemName : String) (serverId : Int) (ok : String → Bool) :
    ((h.broadcastItemUpdate itemName serverId ok).hub.conns
        = h.conns \ ((h.broadcastItemUpdate itemName serverId ok).sentTo.filter
            fun i => ¬ ok i) ∧
      (∀ i ∈ (h.broadcastItemUpdate itemName serverId ok).sentTo, ok i = false →
        i ∉ (h.broadcastItemUpdate itemName serverId ok).hub.conns ∧
        ∀ k, i ∉ (h.broadcastItemUpdate itemName serverId ok).hub.index k) ∧
      (∀ i ∈ (h.broadcastItemUpdate itemName serverId ok).sentTo, ok i = true →
        i ∈ (h.broadcastItemUpdate itemName serverId ok).delivered)) ∧
    ((h.broadcastAll ok).hub.conns = h.conns.filter (fun i => ok i) ∧
      (∀ i ∈ h.conns, ok i = false →
        i ∉ (h.broadcastAll ok).hub.conns ∧
        ∀ k, i ∉ (h.broadcastAll ok).hub.index k) ∧
      (∀ i ∈ h.conns, ok i = true → i ∈ (h.broadcastAll ok).delivered)) := by
  have hi := reachable_inv h hr
  constructor
  · obtain ⟨e1, e2⟩ := cleanup_sorted h hi
      ((h.broadcastItemUpdate itemName serverId ok).sentTo.filter fun i => ¬ ok i)
    refine ⟨e1, ?_, ?_⟩
    · intro i him hfalse
      have hif : i ∈ (h.broadcastItemUpdate itemName serverId ok).sentTo.filter
          fun i => ¬ ok i :=
        Finset.mem_filter.mpr ⟨him, by simp [hfalse]⟩
      refine ⟨?_, fun k => e2 i hif k⟩
      intro hcon
      have hsd : i ∈ h.conns \ ((h.broadcastItemUpdate itemName serverId ok).sentTo.filter
          fun i => ¬ ok i) := e1 ▸ hcon
      exact (Finset.mem_sdiff.mp hsd).2 hif
    · intro i him htrue
      exact Finset.mem_filter.mpr ⟨him, htrue⟩
  · obtain ⟨e1, e2⟩ := cleanup_sorted h hi (h.conns.filter fun i => ¬ ok i)
    have hsd : h.conns \ (h.conns.filter fun i => ¬ ok i)
        = h.conns.filter fun i => ok i := by
      ext x
      simp only [Finset.mem_sdiff, Finset.mem_filter]
      tauto
    have hcn : (h.broadcastAll ok).hub.conns = h.conns.filter fun i => ok i := by
      show (h.cleanupFailed ((h.conns.filter fun i => ¬ ok i).sort
          fun a b => a ≤ b)).conns = h.conns.filter fun i => ok i
      rw [e1]
      exact hsd
    refine ⟨hcn, ?_, ?_⟩
    · intro i him hfalse
      have hif : i ∈ h.conns.filter fun i => ¬ ok i :=
        Finset.mem_filter.mpr ⟨him, by simp [hfalse]⟩
      refine ⟨?_, fun k => e2 i hif k⟩
      intro hcon
      have hsd2 : i ∈ h.conns \ (h.conns.filter fun i => ¬ ok i) := e1 ▸ hcon
      exact (Finset.mem_sdiff.mp hsd2).2 hif
    · intro i him htrue
      exact Finset.mem_filter.mpr ⟨him, htrue⟩

/-- C6 witness: with `"a"` and `"b"` registered and `"a"` subscribed to
`("x", 1)`, a broadcast-to-all on which only `"b"`'s send succeeds evicts
`"a"` from the registry and from the `("x", 1)` entry, while `"b"` is
delivered to. -/
theorem dead_connection_eviction_witness :
    (Hub.init.applyOps [HubOp.connect "a", HubOp.connect "b",
        HubOp.subscribe "a" "x" 1]).Reachable ∧
    "a" ∈ (Hub.init.applyOps [HubOp.connect "a", HubOp.connect "b",
        HubOp.subscribe "a" "x" 1]).conns ∧
    (fun i => decide (i = "b")) "a" = false ∧
    "a" ∉ ((Hub.init.applyOps [HubOp.connect "a", HubOp.connect "b",
        HubOp.subscribe "a" "x" 1]).broadcastAll
        (fun i => decide (i = "b"))).hub.conns ∧
    "a" ∉ ((Hub.init.applyOps [HubOp.connect "a", HubOp.connect "b",
        HubOp.subscribe "a" "x" 1]).broadcastAll
        (fun i => decide (i = "b"))).hub.index (mkSubKey "x" 1) ∧
    "b" ∈ ((Hub.init.applyOps [HubOp.connect "a", HubOp.connect "b",
        HubOp.subscribe "a" "x" 1]).broadcastAll
        (fun i => decide (i = "b"))).delivered := by
  have hr : (Hub.init.applyOps [HubOp.connect "a", HubOp.connect "b",
      HubOp.subscribe "a" "x" 1]).Reachable :=
    ⟨[HubOp.connect "a", HubOp.connect "b", HubOp.subscribe "a" "x" 1], rfl⟩
  have ha : "a" ∈ (Hub.init.applyOps [HubOp.connect "a", HubOp.connect "b",
      HubOp.subscribe "a" "x" 1]).conns := by decide
  have hb : "b" ∈ (Hub.init.applyOps [HubOp.connect "a", HubOp.connect "b",
      HubOp.subscribe "a" "x" 1]).conns := by decide
  have ht := (dead_connection_eviction _ hr "x" 1 (fun i => decide (i = "b"))).2
  have hdead := ht.2.1 "a" ha (by decide)
  exact ⟨hr, ha, by decide, hdead.1, hdead.2 (mkSubKey "x" 1),
    ht.2.2 "b" hb (by decide)⟩

/-! ## Orchestrator lemmas -/

/-- A read never changes the default TTL. -/
lemma get_default_ttl (c : TTLCache α) (now : Nat) (key : String) :
    (c.get now key).2.default_ttl = c.default_ttl := by
  unfold TTLCache.get
  cases hd : c.data key with
  | none => rfl
  | some e => by_cases he : e.is_expired now <;> simp [he]

/-- C1: when a top-N request misses the cache (or forces a refresh) and
the Market Data Source returns absence, the caller gets the History Store
snapshot marked stale when it is non-empty and a 503 otherwise; the cache
receives no write, nothing is persisted, and no broadcast happens. -/
theorem top5_failure_fallback (α β : Type) (cache : TTLCache (Top5Data α))
    (now : Nat) (category : Option String) (forceRefresh : Bool)
    (dbSnapshot : List β)
    (hmiss : forceRefresh = true ∨ (cache.get now "top5_all").1 = none) :
    (dbSnapshot ≠ [] →
      (getTop5Items cache now category forceRefresh none dbSnapshot).reply
        = Top5Reply.stale dbSnapshot) ∧
    (dbSnapshot = [] →
      (getTop5Items cache now category forceRefresh none dbSnapshot).reply
        = Top5Reply.httpError 503 "Failed to fetch data from GNJOY") ∧
    (getTop5Items cache now category forceRefresh none dbSnapshot).cache
      = (if forceRefresh then cache else (cache.get now "top5_all").2) ∧
    (getTop5Items cache now category forceRefresh none dbSnapshot).saved = [] ∧
    (getTop5Items cache now category forceRefresh none dbSnapshot).didBroadcast
      = false := by
  cases forceRefresh with
  | true =>
    cases dbSnapshot with
    | nil => simp [getTop5Items]
    | cons x xs => simp [getTop5Items]
  | false =>
    have hnone : (cache.get now "top5_all").1 = none := by
      rcases hmiss with hf | hn
      · exact absurd hf (by simp)
      · exact hn
    rcases hget : cache.get now "top5_all" with ⟨o, c1⟩
    rw [hget] at hnone
    have ho : o = none := hnone
    subst ho
    cases dbSnapshot with
    | nil => simp [getTop5Items, hget]
    | cons x xs => simp [getTop5Items, hget]

/-- C1 witness: empty cache, failed fetch, History Store snapshot `[5]` —
the reply is that snapshot marked stale, with no save and no broadcast. -/
theorem top5_failure_fallback_witness :
    (false = true ∨
      ((TTLCache.init (Top5Data Nat) 300).get 0 "top5_all").1 = none) ∧
    ([5] : List Nat) ≠ [] ∧
    (getTop5Items (TTLCache.init (Top5Data Nat) 300) 0 none false none
        ([5] : List Nat)).reply = Top5Reply.stale [5] ∧
    (getTop5Items (TTLCache.init (Top5Data Nat) 300) 0 none false none
        ([5] : List Nat)).didBroadcast = false := by
  have h := top5_failure_fallback Nat Nat (TTLCache.init (Top5Data Nat) 300)
    0 none false [5] (Or.inr rfl)
  exact ⟨Or.inr rfl, by simp, h.1 (by simp), h.2.2.2.2⟩

/-- The cache-hit path of `search_items`: the cached record is replayed
with the caller's page and no fetch, save, or broadcast. -/
lemma searchItems_hit (c : TTLCache (SearchCached α)) (now : Nat)
    (name : String) (serverId : Int) (page : Nat) (fetched : List α)
    (cd : SearchCached α) (c2 : TTLCache (SearchCached α))
    (hg : c.get now (searchCacheKey name serverId page) = (some cd, c2)) :
    searchItems c now name serverId page false fetched
      = { response := { items := cd.items, total_count := cd.total_count,
                        page := page, has_more := cd.has_more },
          cache := c2, didFetch := false, didSave := false,
          didBroadcast := false } := by
  simp [searchItems, hg]

/-- C5: a search cache miss yields a response with `total_count` equal to
the fetched length, `has_more` exactly when the length reaches 20, and the
caller's page; the response is cached under the derived key so an
immediate repeat within the TTL returns the same items without a second
fetch; the History Store write and the broadcast happen iff items came
back. -/
theorem search_miss_flow (α : Type) (cache : TTLCache (SearchCached α))
    (now : Nat) (name : String) (serverId : Int) (page : Nat)
    (fetched : List α) (now2 : Nat) (fetched2 : List α)
    (hmiss : (cache.get now (searchCacheKey name serverId page)).1 = none)
    (httl : now2 < now + cache.default_ttl) :
    (searchItems cache now name serverId page false fetched).response
      = { items := fetched, total_count := fetched.length, page := page,
          has_more := decide (20 ≤ fetched.length) } ∧
    (searchItems cache now name serverId page false fetched).didFetch = true ∧
    (searchItems cache now name serverId page false fetched).cache.data
        (searchCacheKey name serverId page)
      = some { value := { items := fetched, total_count := fetched.length,
                          has_more := decide (20 ≤ fetched.length) },
               expires_at := now + cache.default_ttl, created_at := now } ∧
    ((searchItems cache now name serverId page false fetched).didSave = true
      ↔ fetched ≠ []) ∧
    ((searchItems cache now name serverId page false fetched).didBroadcast = true
      ↔ fetched ≠ []) ∧
    (searchItems (searchItems cache now name serverId page false fetched).cache
        now2 name serverId page false fetched2).response
      = { items := fetched, total_count := fetched.length, page := page,
          has_more := decide (20 ≤ fetched.length) } ∧
    (searchItems (searchItems cache now name serverId page false fetched).cache
        now2 name serverId page false fetched2).didFetch = false := by
  rcases hget : cache.get now (searchCacheKey name serverId page) with ⟨o, c1⟩
  rw [hget] at hmiss
  have ho : o = none := hmiss
  subst ho
  have hdt : c1.default_ttl = cache.default_ttl := by
    have hg := get_default_ttl cache now (searchCacheKey name serverId page)
    rw [hget] at hg
    exact hg
  have hrun1 : searchItems cache now name serverId page false fetched
      = { response := { items := fetched, total_count := fetched.length,
                        page := page, has_more := decide (20 ≤ fetched.length) },
          cache := c1.set now (searchCacheKey name serverId page)
                     { items := fetched, total_count := fetched.length,
                       has_more := decide (20 ≤ fetched.length) } none,
          didFetch := true,
          didSave := !fetched.isEmpty,
          didBroadcast := !fetched.isEmpty } := by
    simp [searchItems, hget]
  have hdata : (searchItems cache now name serverId page false fetched).cache.data
      (searchCacheKey name serverId page)
      = some { value := { items := fetched, total_count := fetched.length,
                          has_more := decide (20 ≤ fetched.length) },
               expires_at := now + cache.default_ttl, created_at := now } := by
    rw [hrun1]
    simp [TTLCache.set, TTLCache.effTtl, hdt]
  have hexp : (({ value := { items := fetched, total_count := fetched.length,
                             has_more := decide (20 ≤ fetched.length) },
                  expires_at := now + cache.default_ttl, created_at := now } :
        CacheEntry (SearchCached α)).is_expired now2) = false := by
    simp [CacheEntry.is_expired]
    omega
  have hget2 : ((searchItems cache now name serverId page false fetched).cache.get
        now2 (searchCacheKey name serverId page)).1
      = some { items := fetched, total_count := fetched.length,
               has_more := decide (20 ≤ fetched.length) } := by
    unfold TTLCache.get
    rw [hdata]
    simp [hexp]
  rcases hget2p : (searchItems cache now name serverId page false fetched).cache.get
      now2 (searchCacheKey name serverId page) with ⟨o2, c2⟩
  rw [hget2p] at hget2
  have ho2 : o2 = some { items := fetched, total_count := fetched.length,
                         has_more := decide (20 ≤ fetched.length) } := hget2
  subst ho2
  refine ⟨by rw [hrun1], by rw [hrun1], hdata, ?_, ?_, ?_, ?_⟩
  · rw [hrun1]
    cases fetched <;> simp
  · rw [hrun1]
    cases fetched <;> simp
  · rw [searchItems_hit _ _ _ _ _ fetched2 _ _ hget2p]
  · rw [searchItems_hit _ _ _ _ _ fetched2 _ _ hget2p]

/-- C5 witness: a miss on `search("Elder Willow Card", -1, 1)` returning 3
items yields `total_count = 3`, `has_more = false`, writes, broadcasts,
and an immediate repeat at time 30 is served from cache without a fetch. -/
theorem search_miss_flow_witness :
    (((TTLCache.init (SearchCached Nat) 60).get 0
        (searchCacheKey "Elder Willow Card" (-1) 1)).1 = none) ∧
    ((30 : Nat) < 0 + (TTLCache.init (SearchCached Nat) 60).default_ttl) ∧
    (searchItems (TTLCache.init (SearchCached Nat) 60) 0 "Elder Willow Card"
        (-1) 1 false [10, 11, 12]).response
      = { items := [10, 11, 12], total_count := 3, page := 1,
          has_more := false } ∧
    ((searchItems (TTLCache.init (SearchCached Nat) 60) 0 "Elder Willow Card"
        (-1) 1 false [10, 11, 12]).didBroadcast = true ↔
      ([10, 11, 12] : List Nat) ≠ []) ∧
    (searchItems (searchItems (TTLCache.init (SearchCached Nat) 60) 0
        "Elder Willow Card" (-1) 1 false [10, 11, 12]).cache 30
        "Elder Willow Card" (-1) 1 false []).didFetch = false := by
  have h := search_miss_flow Nat (TTLCache.init (SearchCached Nat) 60) 0
    "Elder Willow Card" (-1) 1 [10, 11, 12] 30 [] rfl (by decide)
  refine ⟨rfl, by decide, ?_, h.2.2.2.2.1, h.2.2.2.2.2.2⟩
  rw [h.1]
  rfl

end RoMarket
